import Mathlib

/-!
Verification of the core data transformations of the `scraper-bershka`
repository (a Bershka product scraper).  Python values are modelled by the
inductive type `Val` (a JSON-like sum type); Python dicts are association
lists with insert-or-replace update (`dset`), mirroring CPython's
insertion-order semantics.  Python floats are modelled exactly by `Dec`, a
decimal fixed-point number `num / 10 ^ exp`: every float the price pipeline
manipulates is obtained by parsing a decimal string or dividing by 100, and
for such values (decimal expansions short enough to round-trip through a
53-bit float) exact decimal arithmetic together with CPython's
shortest-digit layout — positional when the decimal point falls in
`[-3, 16]`, scientific notation outside — coincides with CPython's binary
floats under `str`'s shortest round-trip printing.  String
algorithms are defined on character lists so that every definition reduces
inside the kernel.  Effects (HTTP calls, the SigLIP model, the database)
are modelled as oracle parameters: a function gives the outcome of each
attempt, and the control flow around the oracles is translated from the
source.
-/

/-- Exact model of a Python float in the decimal regime: the value
`num / 10 ^ exp`. -/
structure Dec where
  num : Int
  exp : Nat
deriving DecidableEq

/-- The rational value denoted by a `Dec`. -/
def Dec.toRat (d : Dec) : ℚ := (d.num : ℚ) / 10 ^ d.exp

/-- Model of a Python value as found in the scraper's JSON records. -/
inductive Val where
  | null
  | str (s : String)
  | int (n : Int)
  | float (d : Dec)
  | bool (b : Bool)
  | list (xs : List Val)
  | dict (kvs : List (String × Val))

/-- Python truthiness (`bool(v)`): `None`, `""`, `0`, `0.0`, `False`, empty
list and empty dict are falsy. -/
def Val.truthy : Val → Bool
  | .null => false
  | .str s => !s.data.isEmpty
  | .int n => n != 0
  | .float d => d.num != 0
  | .bool b => b
  | .list xs => !xs.isEmpty
  | .dict kvs => !kvs.isEmpty

/-- Python `a or b`: returns `a` when truthy, else `b`. -/
def pyOr (a b : Val) : Val := if a.truthy then a else b

/-- Lookup in a Python dict modelled as an association list (the value at
the first entry carrying the key). -/
def lookupV : List (String × Val) → String → Option Val
  | [], _ => none
  | p :: t, k => if p.1 == k then some p.2 else lookupV t k

/-- Python `d.get(k, dflt)`. -/
def pyGet (d : List (String × Val)) (k : String) (dflt : Val) : Val :=
  (lookupV d k).getD dflt

/-- Python `k in d` for a dict. -/
def hasKey (d : List (String × Val)) (k : String) : Bool :=
  d.any (fun p => p.1 == k)

/-- Python `d[k] = v`: replace in place when the key exists (dicts keep the
original insertion position), append otherwise. -/
def dset (d : List (String × Val)) (k : String) (v : Val) : List (String × Val) :=
  if d.any (fun p => p.1 == k) then d.map (fun p => if p.1 == k then (k, v) else p)
  else d ++ [(k, v)]

/-! ## String primitives (defined on character lists so they reduce) -/

/-- Python `str.strip()` on a character list. -/
def pyStripChars (l : List Char) : List Char :=
  ((l.dropWhile Char.isWhitespace).reverse.dropWhile Char.isWhitespace).reverse

/-- Python `s.strip()`. -/
def pyStrip (s : String) : String := ⟨pyStripChars s.data⟩

/-- Does the list start with the pattern `pat`? -/
def startsWithChars : List Char → List Char → Bool
  | [], _ => true
  | _ :: _, [] => false
  | p :: ps, c :: cs => p == c && startsWithChars ps cs

/-- Python `pat in s` (contiguous substring test), on character lists. -/
def hasSubChars (pat : List Char) : List Char → Bool
  | [] => pat.isEmpty
  | c :: cs => startsWithChars pat (c :: cs) || hasSubChars pat cs

/-- Python `pat in s` for strings. -/
def strContainsSub (s pat : String) : Bool := hasSubChars pat.data s.data

/-- Python `s.startswith(pre)`. -/
def strStartsWith (s pre : String) : Bool := startsWithChars pre.data s.data

/-- Python `s.endswith(suf)`. -/
def strEndsWith (s suf : String) : Bool := startsWithChars suf.data.reverse s.data.reverse

/-- Python `s.upper()` (ASCII). -/
def strUpper (s : String) : String := ⟨s.data.map Char.toUpper⟩

/-- Python `s.lower()` (ASCII). -/
def strLower (s : String) : String := ⟨s.data.map Char.toLower⟩

/-- Python `not s` / `len(s) == 0`. -/
def strIsEmpty (s : String) : Bool := s.data.isEmpty

/-- Python `len(s)`. -/
def strLen (s : String) : Nat := s.data.length

/-- Python `sep.join(parts)`. -/
def joinSep (sep : String) : List String → String
  | [] => ""
  | [x] => x
  | x :: xs => x ++ sep ++ joinSep sep xs

/-- Python `l.count(c)` / `s.count(c)`. -/
def countChar (c : Char) (l : List Char) : Nat := l.count c

/-- Split a character list on a separator character (Python `s.split(c)`). -/
def splitOnChar (c : Char) : List Char → List (List Char)
  | [] => [[]]
  | x :: xs =>
      let r := splitOnChar c xs
      if x == c then [] :: r
      else
        match r with
        | [] => [[x]]
        | h :: t => (x :: h) :: t

/-! ## Decimal digits, printing and parsing -/

/-- The decimal digit character for `d < 10`. -/
def digitChar (d : Nat) : Char := Char.ofNat (48 + d)

/-- Numeric value of a digit character. -/
def digitVal (c : Char) : Nat := c.toNat - 48

/-- Value of a big-endian digit string. -/
def digitsToNat (l : List Char) : Nat := l.foldl (fun a c => 10 * a + digitVal c) 0

/-- Big-endian decimal digits of a natural number, with explicit fuel so
that the definition reduces structurally. -/
def natDigitsAux : Nat → Nat → List Char
  | 0, _ => []
  | fuel + 1, n =>
      if n < 10 then [digitChar n]
      else natDigitsAux fuel (n / 10) ++ [digitChar (n % 10)]

/-- Big-endian decimal digits of a natural number (CPython's `repr` for
nonnegative ints). -/
def natDigits (n : Nat) : List Char := natDigitsAux (n + 1) n

/-- Decimal representation of a natural number. -/
def natRepr (n : Nat) : String := ⟨natDigits n⟩

/-- Python `repr`/`str` of an int. -/
def intRepr (n : Int) : String :=
  if n < 0 then "-" ++ natRepr n.natAbs else natRepr n.natAbs

/-- Left-pad a digit list with `c` up to length `k`. -/
def leftPad (c : Char) (k : Nat) (l : List Char) : List Char :=
  List.replicate (k - l.length) c ++ l

/-- Remove trailing decimal zeros: the canonical (shortest) form of
`(n, e) = n / 10^e`. -/
def stripZeros : Nat → Nat → Nat × Nat
  | n, 0 => (n, 0)
  | n, e + 1 => if n % 10 == 0 then stripZeros (n / 10) e else (n, e + 1)

/-- Trailing `'0'` characters removed from a digit string: the shortest
significant-digit sequence, as used by the scientific layout. -/
def sciDigits (l : List Char) : List Char :=
  (l.reverse.dropWhile (fun c => c == '0')).reverse

/-- The positional layout of a canonical pair `(n, e)` denoting `n / 10^e`:
an integral value gets a trailing `.0`, otherwise the digits of `n` are
zero-padded and a period is placed `e` digits from the right. -/
def pyFloatStrPos (n : Nat) : Nat → String
  | 0 => natRepr n ++ ".0"
  | e + 1 =>
      let ds := leftPad '0' (e + 2) (natDigits n)
      ⟨ds.take (ds.length - (e + 1)) ++ '.' :: ds.drop (ds.length - (e + 1))⟩

/-- The scientific layout `d[.ddd]e±XX` of a canonical pair `(n, e)`: the
significant digits of `n` with the point after the first, then the decimal
exponent `(digit count of n) - e - 1` with its sign always printed and its
magnitude zero-padded to at least two digits (CPython pystrtod.c,
`format_float_short`). -/
def pyFloatStrSci (n e : Nat) : String :=
  let ds := sciDigits (natDigits n)
  let mant : String :=
    match ds with
    | [] => "0"
    | c :: rest => ⟨c :: (if rest.isEmpty then [] else '.' :: rest)⟩
  let ex : Int := ((natDigits n).length : Int) - (e : Int) - 1
  (mant ++ "e" ++ (if ex < 0 then "-" else "+")) ++ ⟨leftPad '0' 2 (natDigits ex.natAbs)⟩

/-- CPython's choice of layout for a nonzero canonical pair (pystrtod.c,
`format_float_short`, repr mode): scientific iff the decimal-point position
`decpt` — the digit count of `n` minus `e` — is at most `-4` (values below
1e-4) or exceeds `16` (values at least 1e16). -/
def sciRegime (n e : Nat) : Bool :=
  n != 0 && (decide (((natDigits n).length : Int) - (e : Int) ≤ -4)
    || decide (16 < ((natDigits n).length : Int) - (e : Int)))

/-- Layout of the canonical digits: positional when the decimal point falls
in `[-3, 16]`, scientific otherwise. -/
def pyFloatStrCanon (n e : Nat) : String :=
  if sciRegime n e then pyFloatStrSci n e else pyFloatStrPos n e

/-- CPython `str(float)`: the sign, then the shortest decimal digits of the
value, laid out positionally or in scientific notation exactly as CPython
chooses.  (CPython rounds to 53-bit binary floats before printing; on
values whose exact decimal form is short enough to round-trip — every value
the price pipeline builds from its inputs — the exact decimal digits and
the float's shortest repr digits agree.) -/
def pyFloatStr (d : Dec) : String :=
  if d.num < 0 then
    "-" ++ pyFloatStrCanon (stripZeros d.num.natAbs d.exp).1 (stripZeros d.num.natAbs d.exp).2
  else
    pyFloatStrCanon (stripZeros d.num.natAbs d.exp).1 (stripZeros d.num.natAbs d.exp).2

/-- Python `str(v)`.  The reprs of composite values are not needed by any
claim and are not modelled digit-for-digit. -/
def pyStr : Val → String
  | .null => "None"
  | .str s => s
  | .int n => intRepr n
  | .float d => pyFloatStr d
  | .bool b => if b then "True" else "False"
  | .list _ => "<list>"
  | .dict _ => "<dict>"

/-- Python `float(s)` on the strings the price pipeline can produce: digits
with at most one `'.'` (a lone `'.'` or an empty string is a `ValueError`,
as is any other character, e.g. a remaining `','`). -/
def parseFloatL (l : List Char) : Option Dec :=
  if l.isEmpty then none
  else if l.all (fun c => c.isDigit || c == '.') then
    match (l.filter (fun c => c == '.')).length with
    | 0 => some ⟨digitsToNat l, 0⟩
    | 1 =>
        let a := l.takeWhile (fun c => c != '.')
        let b := (l.dropWhile (fun c => c != '.')).tail
        if a.isEmpty && b.isEmpty then none
        else some ⟨((digitsToNat a * 10 ^ b.length + digitsToNat b : Nat) : Int), b.length⟩
    | _ => none
  else none

/-- The transformation `"".join(parts[:-1]) + "." + parts[-1]` applied to the
`'.'`-split of `l` (src/transform.py:184-186: collapse all but the last
period). -/
def joinLastDot (l : List Char) : List Char :=
  let parts := splitOnChar '.' l
  parts.dropLast.flatten ++ '.' :: (parts.getLastD [])

/-! ## src/transform.py -/

/-- `_fix_image_url` (src/transform.py:66-74).  The source tests
`u.startswith('/')` before `u.startswith('//')`, so the `'//'` branch is
unreachable; the translation preserves that order. -/
def fix_image_url (url : Val) : Val :=
  match url with
  | Val.str s =>
      if strIsEmpty s then url
      else
        let u := pyStrip s
        if strStartsWith u "/" then Val.str ("https://static.bershka.net" ++ u)
        else if strStartsWith u "//" then Val.str ("https:" ++ u)
        else Val.str u
  | _ => url

/-- `_fix_image_url` restricted to strings (every call site passes `str`). -/
def fixUrlStr (u : String) : String :=
  match fix_image_url (Val.str u) with
  | Val.str t => t
  | _ => u

mutual

/-- One step of `_flatten_urls` (src/transform.py:80-85): keep non-empty,
non-`data:` strings (stripped), recurse into lists. -/
def flatten_url_val : Val → List String
  | Val.str s =>
      if !strIsEmpty (pyStrip s) && !strStartsWith (pyStrip s) "data:" then [pyStrip s]
      else []
  | Val.list xs => flatten_urls_list xs
  | _ => []

/-- `_flatten_urls` over a list of items, preserving traversal order. -/
def flatten_urls_list : List Val → List String
  | [] => []
  | x :: xs => flatten_url_val x ++ flatten_urls_list xs

end

/-- The comprehension of src/transform.py:89-90: deduplicate preserving
first-seen order, skipping empty strings (`seen` is the set built so far). -/
def dedupeUrlsGo (seen : List String) : List String → List String
  | [] => []
  | u :: us =>
      if u == "" then dedupeUrlsGo seen us
      else if seen.contains u then dedupeUrlsGo seen us
      else u :: dedupeUrlsGo (u :: seen) us

/-- `unique_urls` from `all_urls` (src/transform.py:89-90). -/
def dedupeUrls (l : List String) : List String := dedupeUrlsGo [] l

/-- Python `dict.fromkeys(l)` key order: deduplicate keeping first
occurrences (src/transform.py:163). -/
def dedupeKeepFirstGo (seen : List String) : List String → List String
  | [] => []
  | u :: us =>
      if seen.contains u then dedupeKeepFirstGo seen us
      else u :: dedupeKeepFirstGo (u :: seen) us

/-- Deduplicate a size list preserving order. -/
def dedupeKeepFirst (l : List String) : List String := dedupeKeepFirstGo [] l

/-- Gender normalization (src/transform.py:126-141).  The source checks the
men terms before the women terms; the translation preserves that order. -/
def normalize_gender (raw_gender : Val) : Val :=
  if raw_gender.truthy then
    let gender_str := strUpper (pyStrip (pyStr raw_gender))
    if gender_str == "MAN" || gender_str == "WOMAN" then Val.str gender_str
    else if ["MEN", "MAN", "MALE", "GUY", "BOY"].any (fun w => strContainsSub gender_str w) then
      Val.str "MAN"
    else if ["WOMEN", "WOMAN", "FEMALE", "LADY", "GIRL"].any
        (fun w => strContainsSub gender_str w) then
      Val.str "WOMAN"
    else Val.str gender_str
  else Val.null

/-- Python `str.title()` for ASCII: a letter after a non-letter is
uppercased, a letter after a letter is lowercased. -/
def pyTitleGo : Bool → List Char → List Char
  | _, [] => []
  | prevAlpha, c :: cs =>
      (if c.isAlpha then (if prevAlpha then c.toLower else c.toUpper) else c)
        :: pyTitleGo c.isAlpha cs

/-- Python `s.title()`. -/
def pyTitle (s : String) : String := ⟨pyTitleGo false s.data⟩

/-- The inner loop of the size flattening (src/transform.py:157-160): strings
inside a nested list, stripped, empty ones skipped. -/
def innerSizes : List Val → List String
  | [] => []
  | Val.str t :: r =>
      if !strIsEmpty (pyStrip t) then pyStrip t :: innerSizes r else innerSizes r
  | _ :: r => innerSizes r

/-- `flat_sizes` (src/transform.py:155-162): one level of list nesting is
flattened, strings stripped, non-strings and blank strings skipped. -/
def flattenSizes : List Val → List String
  | [] => []
  | Val.list ts :: r => innerSizes ts ++ flattenSizes r
  | Val.str t :: r =>
      if !strIsEmpty (pyStrip t) then pyStrip t :: flattenSizes r else flattenSizes r
  | _ :: r => flattenSizes r

/-- The test `num_val >= 1000 and abs(num_val - int(num_val)) < 1e-9` of
src/transform.py:189, on the exact decimal value `n / 10^e` (`n ≥ 0`):
the value is at least 1000, and its fractional part `(n mod 10^e) / 10^e`
is below `1e-9`. -/
def geq1000AndIntegral (n : Nat) (e : Nat) : Bool :=
  1000 * 10 ^ e ≤ n && (n % 10 ^ e) * 1000000000 < 10 ^ e

/-- The value of `num_val` in the price block (src/transform.py:170-190):
`none` when `num_val` stays `None` or `float()` raises (the surrounding
`try` then leaves the price unchanged).  Python `bool` is a subclass of
`int` and is handled as `0`/`1`. -/
def computePrice : Val → Option Dec
  | Val.int n => if 1000 ≤ n then some ⟨n, 2⟩ else some ⟨n, 0⟩
  | Val.bool b => some ⟨if b then 1 else 0, 0⟩
  | Val.float d => some d
  | Val.str s =>
      let s1 := pyStripChars s.data
      let sc0 := s1.filter (fun c => c.isDigit || c == '.' || c == ',')
      let sc1 :=
        if countChar ',' sc0 == 1 && countChar '.' sc0 == 0 then
          sc0.map (fun c => if c == ',' then '.' else c)
        else sc0
      let sc2 := if 1 < countChar '.' sc1 then joinLastDot sc1 else sc1
      if sc2.isEmpty then none
      else
        match parseFloatL sc2 with
        | none => none
        | some d =>
            if geq1000AndIntegral d.num.natAbs d.exp then some ⟨d.num, d.exp + 2⟩
            else some d
  | _ => none

/-- The observable effect of the price `try` block on `row["price"]`
(src/transform.py:169-194): the price becomes `str(num_val)` when `num_val`
was computed, and is left unchanged otherwise (including when `float()`
raised, since the `except` clause passes). -/
def normPriceVal (p : Val) : Val :=
  match computePrice p with
  | some d => Val.str (pyFloatStr d)
  | none => p

/-- Python `v is None`. -/
def isNull : Val → Bool
  | Val.null => true
  | _ => false

/-- The metadata assembly (src/transform.py:196-215): base `source`/`id`
entries, then `meta.update(raw["_meta"])`, then the raw-context keys
`_raw_item` and `_raw_html_len` copied from the top level of `raw`, then
`original_price`/`original_currency` added only when absent.  Nothing in the
block can raise, so the surrounding `try` is not modelled. -/
def build_metadata (raw row : List (String × Val)) : List (String × Val) :=
  let meta : List (String × Val) := []
  let meta :=
    match pyGet row "source" Val.null with
    | Val.null => meta
    | Val.str "" => meta
    | v => dset meta "source" v
  let meta :=
    match pyGet row "id" Val.null with
    | Val.null => meta
    | Val.str "" => meta
    | v => dset meta "id" v
  let meta :=
    match pyGet raw "_meta" Val.null with
    | Val.dict kvs => kvs.foldl (fun m kv => dset m kv.1 kv.2) meta
    | _ => meta
  let meta :=
    match pyGet raw "_raw_item" Val.null with
    | Val.null => meta
    | v => dset meta "_raw_item" v
  let meta :=
    match pyGet raw "_raw_html_len" Val.null with
    | Val.null => meta
    | v => dset meta "_raw_html_len" v
  let meta :=
    if !isNull (pyGet raw "price" Val.null) && !hasKey meta "original_price" then
      dset meta "original_price" (pyGet raw "price" Val.null)
    else meta
  let meta :=
    if !isNull (pyGet raw "currency" Val.null) && !hasKey meta "original_currency" then
      dset meta "original_currency" (pyGet raw "currency" Val.null)
    else meta
  meta

/-- Python `s.strip('-')`. -/
def stripDashes (s : String) : String :=
  ⟨((s.data.dropWhile (fun c => c == '-')).reverse.dropWhile (fun c => c == '-')).reverse⟩

/-- `to_supabase_row` (src/transform.py:34-219).  The only uncaught
exception point is the generated-product-URL branch, where
`raw.get("title", "product").lower()` raises `AttributeError` when the
title value is not a string; it is surfaced as `Except.error`.  (The
`re.sub(r'[^a-z0-9]+', title.lower(), '-')` call on line 115 has the
replacement and subject swapped: the subject is the literal `"-"`, which the
pattern matches entirely, so the result is `title.lower()` and the slug is
`title.lower().strip('-')`; replacement-escape processing is not
modelled.) -/
def to_supabase_row (raw : List (String × Val)) : Except String (List (String × Val)) :=
  let external_id := pyOr (pyGet raw "external_id" Val.null) (pyGet raw "product_id" Val.null)
  let row := dset [] "id"
    (if external_id.truthy then Val.str (pyStr external_id)
     else Val.str (pyStr (pyGet raw "product_url" (Val.str "unknown"))))
  let row := dset row "source" (pyOr (pyGet raw "source" Val.null) (Val.str "scraper"))
  let row := dset row "title" (pyOr (pyGet raw "title" Val.null) (Val.str "Unknown title"))
  let row := dset row "description" (pyGet raw "description" Val.null)
  let row := dset row "brand" (pyOr (pyGet raw "brand" Val.null) (Val.str "Bershka"))
  let row := dset row "price" (pyGet raw "price" Val.null)
  let row := dset row "currency" (pyOr (pyGet raw "currency" Val.null) (Val.str "EUR"))
  let unique_urls :=
    match pyGet raw "all_image_urls" Val.null with
    | Val.list xs => dedupeUrls (flatten_urls_list xs)
    | _ => []
  let image_url0 := pyGet raw "image_url" Val.null
  let image_url1 :=
    if !image_url0.truthy && !unique_urls.isEmpty then Val.str (unique_urls.headD "")
    else image_url0
  let image_url2 :=
    if image_url1.truthy then fix_image_url (Val.str (pyStr image_url1)) else image_url1
  let row := dset row "image_url" image_url2
  let main_url := image_url2
  let row := dset row "additional_images"
    (if !unique_urls.isEmpty then
       let others := unique_urls.filter (fun u =>
         match main_url with
         | Val.str m => u != m
         | _ => true)
       let others := (others.filter (fun u => u != "")).map fixUrlStr
       if !others.isEmpty then Val.str (joinSep " , " others) else Val.null
     else Val.null)
  let product_url0 := pyGet raw "product_url" Val.null
  let productUrlRes : Except String Val :=
    if !product_url0.truthy && external_id.truthy then
      match pyGet raw "title" (Val.str "product") with
      | Val.str t =>
          Except.ok (Val.str
            ("https://www.bershka.com/us/" ++ stripDashes (strLower t) ++ "-c0p"
              ++ pyStr external_id ++ ".html"))
      | _ => Except.error "AttributeError: lower"
    else Except.ok product_url0
  match productUrlRes with
  | Except.error e => Except.error e
  | Except.ok product_url =>
    let row := dset row "product_url" product_url
    let row := dset row "affiliate_url" (pyGet raw "affiliate_url" Val.null)
    let row := dset row "sale" (pyGet raw "sale" Val.null)
    let row := dset row "second_hand" (Val.bool false)
    let row := dset row "gender" (normalize_gender (pyGet raw "gender" Val.null))
    let row := dset row "category"
      (match pyGet raw "category" Val.null with
       | Val.str s =>
           if !strIsEmpty (pyStrip s) then
             Val.str (pyTitle ⟨(pyStrip s).data.map (fun c => if c == '_' then ' ' else c)⟩)
           else Val.str s
       | v => v)
    let size_val := pyOr (pyGet raw "size" Val.null) (pyGet raw "sizes" Val.null)
    let row :=
      match size_val with
      | Val.list xs =>
          let flat_sizes := flattenSizes xs
          dset row "size"
            (if !flat_sizes.isEmpty then Val.str (joinSep ", " (dedupeKeepFirst flat_sizes))
             else Val.null)
      | Val.str s =>
          dset row "size" (if !strIsEmpty (pyStrip s) then Val.str (pyStrip s) else Val.null)
      | _ => row
    let row := dset row "price" (normPriceVal (pyGet row "price" Val.null))
    let row := dset row "metadata" (Val.dict (build_metadata raw row))
    Except.ok row

/-! ## src/embeddings.py

The network and the SigLIP model are modelled by oracles: `modelOk` is
whether `_get_model` succeeded (a load failure is cached, so it is a single
boolean), and `att url i` is the outcome of attempt `i` of the
fetch/decode/embed body for the final URL `url` — `none` when any exception
was raised during the attempt, `some emb` when the model produced the
(squeezed) vector `emb`. -/

/-- The `for attempt in range(max_retries)` loop of
src/embeddings.py:80-118, starting at attempt index `i` with `fuel`
attempts remaining: an exception moves to the next attempt, a successful
inference returns the vector only when its length is exactly 768 and
otherwise returns `None` immediately (src/embeddings.py:110-114). -/
def embed_attempt_loop (att : String → Nat → Option (List ℚ)) (url : String) :
    Nat → Nat → Option (List ℚ)
  | _, 0 => none
  | i, fuel + 1 =>
      match att url i with
      | none => embed_attempt_loop att url (i + 1) fuel
      | some emb => if emb.length = 768 then some emb else none

/-- `video_indicators` (src/embeddings.py:49). -/
def video_indicators : List String :=
  [".m3u8", ".mp4", ".avi", ".mov", ".wmv", ".flv", ".webm", ".m4v", "video.mp4", "/video"]

/-- `non_image_extensions` (src/embeddings.py:55). -/
def non_image_extensions : List String :=
  [".html", ".htm", ".json", ".xml", ".txt", ".css", ".js"]

/-- Python `s.split(pat, 1)` as the pair around the first occurrence of
`pat`, `none` when `pat` does not occur. -/
def splitFirstSub (pat : List Char) : List Char → Option (List Char × List Char)
  | [] => none
  | c :: cs =>
      if startsWithChars pat (c :: cs) then some ([], (c :: cs).drop pat.length)
      else
        match splitFirstSub pat cs with
        | some (a, b) => some (c :: a, b)
        | none => none

/-- The malformed-URL cleanup of src/embeddings.py:72-78: split at the
first `"//"`, collapse repeated slashes in the remainder, and reassemble. -/
def cleanup_double_slash (s : String) : String :=
  match splitFirstSub "//".data s.data with
  | some (protocol, rest) =>
      let restParts := (splitOnChar '/' rest).filter (fun p => !p.isEmpty)
      (⟨protocol⟩ : String) ++ "//" ++ joinSep "/" (restParts.map (fun p => (⟨p⟩ : String)))
  | none => s

/-- The URL validation and cleanup of `get_image_embedding`
(src/embeddings.py:34-78): `none` when one of the checks short-circuits to
`None`, otherwise the scheme-fixed, slash-collapsed URL that the retry loop
will fetch. -/
def image_url_precheck (modelOk : Bool) (image_url : String) : Option String :=
  if strIsEmpty image_url || strIsEmpty (pyStrip image_url) then none
  else if !modelOk then none
  else
    let raw_url := pyStrip image_url
    if strStartsWith raw_url "data:" then none
    else if video_indicators.any (fun ind => strContainsSub (strLower raw_url) ind) then none
    else if non_image_extensions.any (fun ext => strEndsWith (strLower raw_url) ext) then none
    else if strContainsSub (strLower raw_url) "bershka"
        && !strStartsWith raw_url "https://static.bershka.net/" then none
    else if strContainsSub (strLower raw_url) "bershka"
        && !strContainsSub raw_url "assets/public" && strLen raw_url < 80 then none
    else
      let raw_url1 := if strStartsWith raw_url "//" then "https:" ++ raw_url else raw_url
      let raw_url2 :=
        if strContainsSub raw_url1 "//" && !strStartsWith raw_url1 "http" then
          cleanup_double_slash raw_url1
        else raw_url1
      some raw_url2

/-- `get_image_embedding` (src/embeddings.py:31-121): URL validation
short-circuits to `None`, then the URL is scheme-fixed and cleaned, then
the retry loop runs `max_retries` attempts (the call sites use the default
`max_retries = 3`). -/
def get_image_embedding (modelOk : Bool) (att : String → Nat → Option (List ℚ))
    (image_url : String) (max_retries : Nat) : Option (List ℚ) :=
  match image_url_precheck modelOk image_url with
  | none => none
  | some u => embed_attempt_loop att u 0 max_retries

/-- The squeezed tensor produced by the text encoder in `get_text_embedding`
(src/embeddings.py:139-171): a flat list of floats or a nested batch. -/
inductive SqueezeOut where
  | flat (l : List ℚ)
  | nested (ls : List (List ℚ))

/-- `get_text_embedding` (src/embeddings.py:124-179).  `res` is the oracle
for the tokenize/encode body: `none` when it raised or produced no usable
output (including `input_ids is None`), `some t` for a squeezed tensor
`t`.  An empty tensor makes `embedding[0]` raise `IndexError`, which the
`except` turns into `None`; a nested tensor is unwrapped to its first
element; any length other than 768 yields `None`. -/
def get_text_embedding (modelOk : Bool) (res : Option SqueezeOut) (text : String) :
    Option (List ℚ) :=
  if strIsEmpty text || strIsEmpty (pyStrip text) then none
  else if !modelOk then none
  else if strIsEmpty (pyStrip text) then none
  else
    match res with
    | none => none
    | some (SqueezeOut.flat l) =>
        if l.isEmpty then none
        else if l.length = 768 then some l else none
    | some (SqueezeOut.nested ls) =>
        match ls with
        | [] => none
        | l0 :: _ => if l0.length = 768 then some l0 else none

/-! ## src/cli.py -/

/-- `discover_product_ids_from_api` (src/cli.py:75-110): each candidate URL
produces either `none` (request exception, non-2xx status, or JSON decode
failure — all demote to the next URL) or `some ids` (a 200 response whose
`productIds` field parsed as `ids`); the first non-empty `ids` is returned,
and exhausting the candidates returns `[]`. -/
def discover_product_ids_from_api : List (Option (List Int)) → List Int
  | [] => []
  | r :: rs =>
      match r with
      | some ids => if ids.isEmpty then discover_product_ids_from_api rs else ids
      | none => discover_product_ids_from_api rs

/-- Python `int(s)`: optional sign and decimal digits after stripping
whitespace (digit-group underscores are not modelled). -/
def pyInt (s : String) : Except String Int :=
  match pyStripChars s.data with
  | '-' :: ds =>
      if !ds.isEmpty && ds.all Char.isDigit then Except.ok (-(digitsToNat ds : Int))
      else Except.error "ValueError"
  | '+' :: ds =>
      if !ds.isEmpty && ds.all Char.isDigit then Except.ok (digitsToNat ds)
      else Except.error "ValueError"
  | ds =>
      if !ds.isEmpty && ds.all Char.isDigit then Except.ok (digitsToNat ds)
      else Except.error "ValueError"

/-- The fallback-ID parsing of src/cli.py:253:
`[int(pid.strip()) for pid in fallback_ids_str.split(",") if pid.strip()]`
(a malformed token raises `ValueError`, surfaced as `Except.error`). -/
def parse_fallback_ids (s : String) : Except String (List Int) :=
  let toks := (splitOnChar ',' s.data).filter (fun t => !(pyStripChars t).isEmpty)
  toks.mapM (fun t => pyInt (⟨t⟩ : String))

/-- The per-category discovery strategy chain of `run_for_site`
(src/cli.py:240-254): the discovery API first, the Playwright page scrape
when the API produced nothing, and the configured static fallback list when
both produced nothing and the fallback string is truthy. -/
def resolve_product_ids (apiResponses : List (Option (List Int)))
    (playwright_ids : List Int) (fallback_ids_str : String) : Except String (List Int) :=
  let ids1 := discover_product_ids_from_api apiResponses
  let ids2 := if ids1.isEmpty then playwright_ids else ids1
  if ids2.isEmpty && !strIsEmpty fallback_ids_str then parse_fallback_ids fallback_ids_str
  else Except.ok ids2

/-- `range(0, len(l), n)` batching with explicit fuel. -/
def chunksGo (n : Nat) : Nat → List α → List (List α)
  | 0, _ => []
  | _, [] => []
  | fuel + 1, l => l.take n :: chunksGo n fuel (l.drop n)

/-- Partition a list into contiguous batches of size `n` (the final batch
may be shorter), as `collected[i:i + upsert_batch_size]` does. -/
def chunks (n : Nat) (l : List α) : List (List α) := chunksGo n l.length l

/-- The upsert loop of `run_for_site` (src/cli.py:362-379): for each batch,
a successful `db.upsert_products(batch)` adds the whole batch length to
`success_count`; on an exception, one `db.upsert_products([row])` per row
is attempted and each success adds 1.  `batchOk b` is the outcome oracle of
the batch call on `b`, `rowOk r` of the per-row call on `r`. -/
def upsert_batches (batchOk : List α → Bool) (rowOk : α → Bool) : List (List α) → Nat
  | [] => 0
  | b :: bs =>
      (if batchOk b then b.length else (b.filter rowOk).length)
        + upsert_batches batchOk rowOk bs

/-- The rows actually persisted by the upsert loop: a whole batch when the
batch call succeeds, the individually-successful rows otherwise. -/
def persisted_rows (batchOk : List α → Bool) (rowOk : α → Bool) : List (List α) → List α
  | [] => []
  | b :: bs => (if batchOk b then b else b.filter rowOk) ++ persisted_rows batchOk rowOk bs

/-- `success_count` over the whole `collected` list with the source's batch
size of 50 (src/cli.py:362-364). -/
def upsert_collected (batchOk : List α → Bool) (rowOk : α → Bool) (collected : List α) : Nat :=
  upsert_batches batchOk rowOk (chunks 50 collected)

/-! ## src/bershka_scraper.py -/

/-- The URL scheme-normalization step of `BershkaScraper._get_best_image_url`
(src/bershka_scraper.py:324-329): unlike `_fix_image_url`, the `'//'` test
comes first. -/
def best_image_url_fix (url : String) : String :=
  if strStartsWith url "//" then "https:" ++ url
  else if strStartsWith url "/" then "https://static.bershka.net" ++ url
  else url

/-! ## Claims -/

/-- C1: the claim says the persisted `id` is a deterministic one-way hash of
`(source, product_url)`, injective in `product_url`.  In the code the `id`
is the `external_id` (falling back to the raw `product_url` string), so two
rows that agree on `(source, external_id)` but have distinct
`product_url` values receive the same `id`: evaluated on two such inputs,
`to_supabase_row` returns identical ids for distinct product URLs. -/
theorem c1_id_is_external_id_not_hash :
    ((to_supabase_row [("external_id", Val.str "C1234-99"), ("source", Val.str "scraper"),
        ("product_url", Val.str "https://www.bershka.com/en/a.html")]).map
          (fun r => (pyGet r "id" Val.null, pyGet r "product_url" Val.null))
      = Except.ok (Val.str "C1234-99", Val.str "https://www.bershka.com/en/a.html"))
    ∧ ((to_supabase_row [("external_id", Val.str "C1234-99"), ("source", Val.str "scraper"),
        ("product_url", Val.str "https://www.bershka.com/en/b.html")]).map
          (fun r => (pyGet r "id" Val.null, pyGet r "product_url" Val.null))
      = Except.ok (Val.str "C1234-99", Val.str "https://www.bershka.com/en/b.html"))
    ∧ ("https://www.bershka.com/en/a.html" : String) ≠ "https://www.bershka.com/en/b.html" :=
  ⟨rfl, rfl, by decide⟩

/-- C5: the claim says every URL beginning with `//` is repaired to
`https://` followed by the remainder.  `_fix_image_url` tests
`startswith('/')` first, so a protocol-relative URL instead receives the
static-host prefix (first conjunct), while the sibling
`_get_best_image_url` repair orders the tests correctly and yields the
claimed result (second conjunct); root-relative URLs are handled as claimed
by both (third conjunct). -/
theorem c5_fix_image_url_double_slash_branch_dead :
    fix_image_url (Val.str "//static.bershka.net/photos/i.jpg")
      = Val.str "https://static.bershka.net//static.bershka.net/photos/i.jpg"
    ∧ best_image_url_fix "//static.bershka.net/photos/i.jpg"
      = "https://static.bershka.net/photos/i.jpg"
    ∧ fix_image_url (Val.str "/photos/i.jpg")
      = Val.str "https://static.bershka.net/photos/i.jpg" :=
  ⟨rfl, rfl, rfl⟩

/-- C6: the claim says every input containing a women term (WOMEN, WOMAN,
FEMALE, LADY, GIRL) maps to "WOMAN".  The code checks the men terms first
and "WOMEN" contains "MEN" (and "FEMALE" contains "MALE"), so the inputs
"women" and "female" map to "MAN"; terms not containing a men term ("lady")
and unmatched input ("kids", passed through uppercased) behave as
claimed. -/
theorem c6_gender_women_maps_to_man :
    ((to_supabase_row [("product_url", Val.str "u"), ("gender", Val.str "women")]).map
        (fun r => pyGet r "gender" Val.null) = Except.ok (Val.str "MAN"))
    ∧ normalize_gender (Val.str "female") = Val.str "MAN"
    ∧ normalize_gender (Val.str "lady") = Val.str "WOMAN"
    ∧ normalize_gender (Val.str "kids") = Val.str "KIDS" :=
  ⟨rfl, rfl, rfl, rfl⟩

/-- C3, counterexample: price normalization is not idempotent as claimed,
in two regimes.  The minor-unit input "100000" (1000.00 in major units)
normalizes to "1000.0", and renormalizing "1000.0" divides by 100 again,
yielding "10.0".  The sub-1e-4 input "0.00005" normalizes to the
scientific-notation string "5e-05", and renormalizing "5e-05" drops the
`e` and the `-`, yielding "505.0". -/
theorem c3_counterexample_renormalize_100000 :
    (normPriceVal (Val.str "100000") = Val.str "1000.0"
      ∧ normPriceVal (Val.str "1000.0") = Val.str "10.0"
      ∧ normPriceVal (normPriceVal (Val.str "100000")) ≠ normPriceVal (Val.str "100000"))
    ∧ (normPriceVal (Val.str "0.00005") = Val.str "5e-05"
      ∧ normPriceVal (Val.str "5e-05") = Val.str "505.0"
      ∧ normPriceVal (normPriceVal (Val.str "0.00005")) ≠ normPriceVal (Val.str "0.00005")) :=
  ⟨⟨rfl, rfl, by
      have h1 : normPriceVal (normPriceVal (Val.str "100000")) = Val.str "10.0" := rfl
      have h2 : normPriceVal (Val.str "100000") = Val.str "1000.0" := rfl
      rw [h1, h2]
      simp⟩,
   ⟨rfl, rfl, by
      have h1 : normPriceVal (normPriceVal (Val.str "0.00005")) = Val.str "505.0" := rfl
      have h2 : normPriceVal (Val.str "0.00005") = Val.str "5e-05" := rfl
      rw [h1, h2]
      simp⟩⟩

/-- C4, counterexample: on an irrecoverable price input the claim demands a
null price, but the code's `except: pass` leaves the raw value in place:
with price `"abc"` the resulting row's price field is the string `"abc"`,
not null. -/
theorem c4_counterexample_irrecoverable_price_stays_raw :
    ((to_supabase_row [("product_url", Val.str "u"), ("price", Val.str "abc")]).map
        (fun r => pyGet r "price" Val.null) = Except.ok (Val.str "abc"))
    ∧ Val.str "abc" ≠ Val.null :=
  ⟨rfl, by simp⟩

/-- Any result of the retry loop is either `none` or a vector of length
exactly 768. -/
theorem embed_attempt_loop_length (att : String → Nat → Option (List ℚ)) (url : String) :
    ∀ (fuel i : Nat), embed_attempt_loop att url i fuel = none
      ∨ ∃ v, embed_attempt_loop att url i fuel = some v ∧ v.length = 768 := by
  intro fuel
  induction fuel with
  | zero => intro i; exact Or.inl rfl
  | succ f ih =>
    intro i
    cases h : att url i with
    | none =>
        have := ih (i + 1)
        simpa [embed_attempt_loop, h] using this
    | some emb =>
        by_cases hl : emb.length = 768
        · exact Or.inr ⟨emb, by simp [embed_attempt_loop, h, hl], hl⟩
        · exact Or.inl (by simp [embed_attempt_loop, h, hl])

/-- If every attempt before `i` raised, and attempt `i` produced a vector of
the wrong length, the loop returns `none` (it does not retry past `i`). -/
theorem embed_attempt_loop_mismatch (att : String → Nat → Option (List ℚ)) (url : String)
    (i : Nat) (emb : List ℚ) (hpre : ∀ j, j < i → att url j = none)
    (hi : att url i = some emb) (hlen : emb.length ≠ 768) :
    ∀ (fuel i0 : Nat), i0 ≤ i → i < i0 + fuel → embed_attempt_loop att url i0 fuel = none := by
  intro fuel
  induction fuel with
  | zero => intro i0 h1 h2; omega
  | succ f ih =>
    intro i0 h1 h2
    rcases Nat.eq_or_lt_of_le h1 with heq | hlt
    · subst heq
      simp [embed_attempt_loop, hi, hlen]
    · have h0 : att url i0 = none := hpre i0 hlt
      have := ih (i0 + 1) (by omega) (by omega)
      simpa [embed_attempt_loop, h0] using this

/-- `get_image_embedding` either returns `none` in one of its validation
branches, or defers to the retry loop on the cleaned-up URL. -/
theorem get_image_embedding_cases (modelOk : Bool) (att : String → Nat → Option (List ℚ))
    (url : String) (n : Nat) :
    get_image_embedding modelOk att url n = none
      ∨ ∃ u2, get_image_embedding modelOk att url n = embed_attempt_loop att u2 0 n := by
  cases h : image_url_precheck modelOk url with
  | none => exact Or.inl (by simp [get_image_embedding, h])
  | some u => exact Or.inr ⟨u, by simp [get_image_embedding, h]⟩

/-- C2: for every image URL the embedding generator returns either a vector
of exactly 768 components or `none`; and when, after any number of failed
attempts, an attempt produces a vector whose length is not 768, the result
is `none` and does not depend on the outcomes of any later attempt (the
dimension mismatch is not retried). -/
theorem c2_image_embedding_768_or_none (modelOk : Bool)
    (att : String → Nat → Option (List ℚ)) (image_url : String) :
    (get_image_embedding modelOk att image_url 3 = none
      ∨ ∃ v, get_image_embedding modelOk att image_url 3 = some v ∧ v.length = 768)
    ∧ (∀ i emb, i < 3 → (∀ u j, j < i → att u j = none) → (∀ u, att u i = some emb) →
        emb.length ≠ 768 →
        get_image_embedding modelOk att image_url 3 = none
        ∧ ∀ att2 : String → Nat → Option (List ℚ),
            (∀ u j, j ≤ i → att2 u j = att u j) →
            get_image_embedding modelOk att2 image_url 3 = none) := by
  constructor
  · rcases get_image_embedding_cases modelOk att image_url 3 with h | ⟨u2, h⟩
    · exact Or.inl h
    · rw [h]; exact embed_attempt_loop_length att u2 3 0
  · intro i emb hi3 hpre hsucc hlen
    constructor
    · rcases get_image_embedding_cases modelOk att image_url 3 with h | ⟨u2, h⟩
      · exact h
      · rw [h]
        exact embed_attempt_loop_mismatch att u2 i emb (fun j hj => hpre u2 j hj)
          (hsucc u2) hlen 3 0 (by omega) (by omega)
    · intro att2 hagree
      rcases get_image_embedding_cases modelOk att2 image_url 3 with h | ⟨u2, h⟩
      · exact h
      · rw [h]
        refine embed_attempt_loop_mismatch att2 u2 i emb ?_ ?_ hlen 3 0 (by omega) (by omega)
        · intro j hj
          rw [hagree u2 j (by omega)]
          exact hpre u2 j hj
        · rw [hagree u2 i (by omega)]
          exact hsucc u2

/-- C2, witness: the first attempt succeeds with a 1-component vector, so
the generator returns `none` even though every later attempt would return a
valid 768-vector. -/
theorem c2_image_embedding_768_or_none_witness :
    get_image_embedding true
      (fun _ i => if i = 0 then some [0] else some (List.replicate 768 0))
      "https://static.bershka.net/assets/public/img.jpg" 3 = none :=
  ((c2_image_embedding_768_or_none true
      (fun _ i => if i = 0 then some [0] else some (List.replicate 768 0))
      "https://static.bershka.net/assets/public/img.jpg").2 0 [0]
    (by omega) (fun u j hj => by omega) (fun u => rfl) (by simp)).1

/-- C10: for every input the text-embedding function returns either `none`
or a list of exactly 768 numbers; empty or whitespace-only text always
yields `none`, as does a failed model load. -/
theorem c10_text_embedding_768_or_none (modelOk : Bool) (res : Option SqueezeOut)
    (text : String) :
    (get_text_embedding modelOk res text = none
      ∨ ∃ v, get_text_embedding modelOk res text = some v ∧ v.length = 768)
    ∧ (strIsEmpty (pyStrip text) = true → get_text_embedding modelOk res text = none)
    ∧ (modelOk = false → get_text_embedding modelOk res text = none) := by
  refine ⟨?_, ?_, ?_⟩
  · simp only [get_text_embedding]
    split
    · exact Or.inl rfl
    split
    · exact Or.inl rfl
    split
    · exact Or.inl rfl
    rcases res with _ | r
    · exact Or.inl rfl
    rcases r with l | ls
    · by_cases he : l.isEmpty
      · exact Or.inl (by simp [he])
      · by_cases hl : l.length = 768
        · exact Or.inr ⟨l, by simp [he, hl], hl⟩
        · exact Or.inl (by simp [he, hl])
    · rcases ls with _ | ⟨l0, rest⟩
      · exact Or.inl rfl
      · by_cases hl : l0.length = 768
        · exact Or.inr ⟨l0, by simp [hl], hl⟩
        · exact Or.inl (by simp [hl])
  · intro h
    simp only [get_text_embedding, h]
    simp
  · intro h
    simp only [get_text_embedding, h]
    split
    · rfl
    · rfl

/-- C10, witness: whitespace-only text yields `none` even with a loaded
model and a successful encoder call. -/
theorem c10_text_embedding_768_or_none_witness :
    get_text_embedding true (some (SqueezeOut.flat (List.replicate 768 0))) "  " = none :=
  (c10_text_embedding_768_or_none true (some (SqueezeOut.flat (List.replicate 768 0)))
    "  ").2.1 rfl

/-- C7: discovery strategies are tried in fixed priority order, stopping at
the first non-empty result: a non-empty API discovery wins; an empty API
discovery falls through to the Playwright ids; and when both are empty and
the configured fallback string parses to a non-empty list, the resolver
returns the parsed fallback list, not an empty result. -/
theorem c7_discovery_strategy_order (rs : List (Option (List Int)))
    (pw : List Int) (s : String) :
    (discover_product_ids_from_api rs ≠ [] →
      resolve_product_ids rs pw s = Except.ok (discover_product_ids_from_api rs))
    ∧ (discover_product_ids_from_api rs = [] → pw ≠ [] →
      resolve_product_ids rs pw s = Except.ok pw)
    ∧ (∀ l : List Int, discover_product_ids_from_api rs = [] → pw = [] →
        parse_fallback_ids s = Except.ok l → l ≠ [] →
        resolve_product_ids rs pw s = Except.ok l) := by
  refine ⟨?_, ?_, ?_⟩
  · intro h
    have he : (discover_product_ids_from_api rs).isEmpty = false := by
      cases hd : discover_product_ids_from_api rs with
      | nil => exact absurd hd h
      | cons a t => rfl
    simp [resolve_product_ids, he]
  · intro h hpw
    have hpe : pw.isEmpty = false := by
      cases pw with
      | nil => exact absurd rfl hpw
      | cons a t => rfl
    simp [resolve_product_ids, h, hpe]
  · intro l h hpw hparse hl
    have hs : strIsEmpty s = false := by
      rcases s with ⟨sd⟩
      cases sd with
      | nil =>
          have : parse_fallback_ids ⟨[]⟩ = Except.ok ([] : List Int) := rfl
          rw [hparse] at this
          cases this
          exact absurd rfl hl
      | cons c cs => rfl
    subst hpw
    simp [resolve_product_ids, h, hs, hparse]

/-- C7, witness: the API strategy fails (an exception, then an empty 200),
Playwright finds nothing, the fallback string parses to `[123, 456]`, and
the resolver returns exactly that list. -/
theorem c7_discovery_strategy_order_witness :
    resolve_product_ids [none, some []] [] "123, 456" = Except.ok [123, 456] :=
  (c7_discovery_strategy_order [none, some []] [] "123, 456").2.2 [123, 456]
    rfl rfl rfl (by simp)

/-- Batching never loses or duplicates rows: the batches of `chunks`
concatenate back to the input (for a positive batch size). -/
theorem chunksGo_flatten {α : Type} (n : Nat) (hn : 1 ≤ n) :
    ∀ (fuel : Nat) (l : List α), l.length ≤ fuel → (chunksGo n fuel l).flatten = l := by
  intro fuel
  induction fuel with
  | zero =>
      intro l hl
      have : l = [] := List.eq_nil_of_length_eq_zero (by omega)
      subst this
      rfl
  | succ f ih =>
      intro l hl
      cases l with
      | nil => rfl
      | cons x xs =>
          have hd : ((x :: xs).drop n).length ≤ f := by
            simp only [List.length_drop]
            simp only [List.length_cons] at hl ⊢
            omega
          calc (chunksGo n (f + 1) (x :: xs)).flatten
              = (x :: xs).take n ++ (chunksGo n f ((x :: xs).drop n)).flatten := rfl
            _ = (x :: xs).take n ++ (x :: xs).drop n := by rw [ih _ hd]
            _ = x :: xs := List.take_append_drop n (x :: xs)

/-- The accumulated success count of the upsert loop is at most the total
number of rows in the batches. -/
theorem upsert_batches_le {α : Type} (batchOk : List α → Bool) (rowOk : α → Bool) :
    ∀ bs : List (List α), upsert_batches batchOk rowOk bs ≤ (bs.map List.length).sum := by
  intro bs
  induction bs with
  | nil => exact Nat.le_refl 0
  | cons b t ih =>
      simp only [upsert_batches, List.map_cons, List.sum_cons]
      have hb : (if batchOk b then b.length else (b.filter rowOk).length) ≤ b.length := by
        split
        · exact Nat.le_refl _
        · exact List.length_filter_le _ _
      omega

/-- A row whose individual upsert succeeds is persisted whenever its batch
call fails. -/
theorem persisted_rows_mem {α : Type} (batchOk : List α → Bool) (rowOk : α → Bool) :
    ∀ (bs : List (List α)) (b : List α) (r : α), b ∈ bs → r ∈ b →
      batchOk b = false → rowOk r = true →
      r ∈ persisted_rows batchOk rowOk bs := by
  intro bs
  induction bs with
  | nil => intro b r hb; cases hb
  | cons b0 t ih =>
      intro b r hb hr hbf hrok
      simp only [persisted_rows, List.mem_append]
      rcases List.mem_cons.mp hb with heq | hmem
      · subst heq
        left
        rw [hbf]
        exact List.mem_filter.mpr ⟨hr, hrok⟩
      · right
        exact ih b r hmem hr hbf hrok

/-- C8: for every batch/row outcome oracle and input list, the success count
reported by the upsert loop of `run_for_site` is at most the number of input
rows; and within any batch whose batch call fails, every row whose
individual fallback upsert succeeds is persisted — one row's failure does
not block the others in its batch. -/
theorem c8_persister_fallback_and_count {α : Type} (batchOk : List α → Bool)
    (rowOk : α → Bool) (rows : List α) :
    upsert_collected batchOk rowOk rows ≤ rows.length
    ∧ ∀ b ∈ chunks 50 rows, ∀ r ∈ b, batchOk b = false → rowOk r = true →
        r ∈ persisted_rows batchOk rowOk (chunks 50 rows) := by
  constructor
  · have h1 := upsert_batches_le batchOk rowOk (chunks 50 rows)
    have h2 : ((chunks 50 rows).map List.length).sum = rows.length := by
      rw [← List.length_flatten]
      have h3 : (chunks 50 rows).flatten = rows :=
        chunksGo_flatten 50 (by omega) rows.length rows (Nat.le_refl _)
      rw [h3]
    rw [h2] at h1
    exact h1
  · intro b hb r hr hbf hrok
    exact persisted_rows_mem batchOk rowOk (chunks 50 rows) b r hb hr hbf hrok

/-- C8, witness: three rows in one batch, the batch call fails because row 2
is malformed, rows 1 and 3 succeed individually and are persisted; the
count never exceeds 3. -/
theorem c8_persister_fallback_and_count_witness :
    upsert_collected (fun b => !b.contains 2) (fun r => r != 2) [1, 2, 3] ≤ 3
    ∧ (1 : ℕ) ∈ persisted_rows (fun b => !b.contains 2) (fun r => r != 2) (chunks 50 [1, 2, 3])
    ∧ (3 : ℕ) ∈ persisted_rows (fun b => !b.contains 2) (fun r => r != 2) (chunks 50 [1, 2, 3]) :=
  ⟨(c8_persister_fallback_and_count (fun b => !b.contains 2) (fun r => r != 2) [1, 2, 3]).1,
   (c8_persister_fallback_and_count (fun b => !b.contains 2) (fun r => r != 2) [1, 2, 3]).2
     [1, 2, 3] (by decide) 1 (by decide) rfl rfl,
   (c8_persister_fallback_and_count (fun b => !b.contains 2) (fun r => r != 2) [1, 2, 3]).2
     [1, 2, 3] (by decide) 3 (by decide) rfl rfl⟩

/-- C4, amended: price normalization is total — the translated `try` block
is a function, never an exception — and on an irrecoverable price input the
resulting price field retains the raw input value (it is null exactly when
the input price was null, never null for an unparseable non-null input). -/
theorem c4_price_total_and_keeps_raw_on_failure (p : Val) :
    (computePrice p = none → normPriceVal p = p)
    ∧ (normPriceVal p = Val.null ↔ p = Val.null) := by
  constructor
  · intro h
    simp [normPriceVal, h]
  · constructor
    · intro h
      cases hc : computePrice p with
      | none => simpa [normPriceVal, hc] using h
      | some d => simp [normPriceVal, hc] at h
    · intro h
      subst h
      rfl

/-- C4, witness: the unparseable price "abc" is left in place. -/
theorem c4_price_total_and_keeps_raw_on_failure_witness :
    normPriceVal (Val.str "abc") = Val.str "abc" :=
  (c4_price_total_and_keeps_raw_on_failure (Val.str "abc")).1 rfl


/-- In-place update rewrites the entry carrying `k` to `(k, v)`, so looking
up `k` afterwards finds `v`. -/
theorem lookupV_map_update (k : String) (v : Val) :
    ∀ d : List (String × Val), d.any (fun p => p.1 == k) = true →
      lookupV (d.map (fun p => if p.1 == k then (k, v) else p)) k = some v := by
  intro d
  induction d with
  | nil => intro h; simp at h
  | cons a t ih =>
      intro h
      by_cases ha : (a.1 == k) = true
      · simp only [List.map_cons, if_pos ha, lookupV]
        simp
      · have ha' : (a.1 == k) = false := by simpa using ha
        have h' : t.any (fun p => p.1 == k) = true := by
          simpa [List.any_cons, ha'] using h
        simp only [List.map_cons, if_neg ha, lookupV, ha', Bool.false_eq_true, if_false]
        exact ih h'

/-- Appending `(k, v)` to a list without key `k` makes `k` look up to `v`. -/
theorem lookupV_append_fresh (k : String) (v : Val) :
    ∀ d : List (String × Val), d.any (fun p => p.1 == k) = false →
      lookupV (d ++ [(k, v)]) k = some v := by
  intro d
  induction d with
  | nil => intro _; simp [lookupV]
  | cons a t ih =>
      intro h
      simp only [List.any_cons, Bool.or_eq_false_iff] at h
      simp only [List.cons_append, lookupV, h.1, Bool.false_eq_true, if_false]
      exact ih h.2

/-- Setting a key makes it present with the given value. -/
theorem lookupV_dset_self (d : List (String × Val)) (k : String) (v : Val) :
    lookupV (dset d k v) k = some v := by
  unfold dset
  by_cases h : d.any (fun p => p.1 == k)
  · rw [if_pos h]
    exact lookupV_map_update k v d h
  · rw [if_neg h]
    exact lookupV_append_fresh k v d (Bool.eq_false_iff.mpr h)

/-- In-place update of a different key does not change a lookup. -/
theorem lookupV_map_ne (k kset : String) (v : Val) (hne : k ≠ kset) :
    ∀ d : List (String × Val),
      lookupV (d.map (fun p => if p.1 == kset then (kset, v) else p)) k = lookupV d k := by
  intro d
  have hks : ((kset : String) == k) = false := beq_eq_false_iff_ne.mpr (Ne.symm hne)
  induction d with
  | nil => rfl
  | cons a t ih =>
      by_cases ha : (a.1 == kset) = true
      · have ha2 : a.1 = kset := by simpa using ha
        have hak : (a.1 == k) = false := by
          rw [ha2]
          exact beq_eq_false_iff_ne.mpr (Ne.symm hne)
        simp only [List.map_cons, if_pos ha, lookupV, hks, hak, Bool.false_eq_true, if_false]
        exact ih
      · simp only [List.map_cons, if_neg ha, lookupV]
        by_cases hak : (a.1 == k) = true
        · simp [hak]
        · have hak' : (a.1 == k) = false := by simpa using hak
          simp only [hak', Bool.false_eq_true, if_false]
          exact ih

/-- Appending an entry with a different key does not change a lookup. -/
theorem lookupV_append_ne (k kset : String) (v : Val) (hne : k ≠ kset) :
    ∀ d : List (String × Val), lookupV (d ++ [(kset, v)]) k = lookupV d k := by
  intro d
  have hks : ((kset : String) == k) = false := beq_eq_false_iff_ne.mpr (Ne.symm hne)
  induction d with
  | nil => simp [lookupV, hks]
  | cons a t ih =>
      simp only [List.cons_append, lookupV]
      by_cases hak : (a.1 == k) = true
      · simp [hak]
      · have hak' : (a.1 == k) = false := by simpa using hak
        simp only [hak', Bool.false_eq_true, if_false]
        exact ih

/-- Setting one key leaves lookups of any other key unchanged. -/
theorem lookupV_dset_ne (d : List (String × Val)) (k kset : String) (v : Val)
    (hne : k ≠ kset) : lookupV (dset d kset v) k = lookupV d k := by
  unfold dset
  by_cases h : d.any (fun p => p.1 == kset)
  · rw [if_pos h]
    exact lookupV_map_ne k kset v hne d
  · rw [if_neg h]
    exact lookupV_append_ne k kset v hne d

/-- A key that looks up successfully is present. -/
theorem hasKey_of_lookupV (d : List (String × Val)) (k : String) (v : Val)
    (h : lookupV d k = some v) : hasKey d k = true := by
  induction d with
  | nil => cases h
  | cons a t ih =>
      unfold hasKey
      by_cases ha : (a.1 == k) = true
      · simp [List.any_cons, ha]
      · have ha' : (a.1 == k) = false := by simpa using ha
        simp only [lookupV, ha', Bool.false_eq_true, if_false] at h
        simp only [List.any_cons, ha', Bool.false_or]
        exact ih h

/-- Folding `dset` over entries none of which carry key `k` leaves lookups
of `k` unchanged. -/
theorem lookupV_foldl_dset_not_mem :
    ∀ (t : List (String × Val)) (m : List (String × Val)) (k : String),
      (∀ kv ∈ t, kv.1 ≠ k) →
      lookupV (t.foldl (fun m kv => dset m kv.1 kv.2) m) k = lookupV m k := by
  intro t
  induction t with
  | nil => intro m k _; rfl
  | cons a r ih =>
      intro m k hmem
      have h1 : a.1 ≠ k := hmem a (List.mem_cons_self a r)
      have h2 : ∀ kv ∈ r, kv.1 ≠ k := fun kv hv => hmem kv (List.mem_cons_of_mem a hv)
      show lookupV (r.foldl (fun m kv => dset m kv.1 kv.2) (dset m a.1 a.2)) k = lookupV m k
      rw [ih (dset m a.1 a.2) k h2]
      exact lookupV_dset_ne m k a.1 a.2 (Ne.symm h1)

/-- `dict.update`: folding `dset` over a duplicate-free key-value list makes
every one of its pairs look up to its own value. -/
theorem lookupV_foldl_dset (kvs : List (String × Val)) :
    ∀ (m : List (String × Val)) (k : String) (v : Val),
      (kvs.map Prod.fst).Nodup → lookupV kvs k = some v →
      lookupV (kvs.foldl (fun m kv => dset m kv.1 kv.2) m) k = some v := by
  induction kvs with
  | nil => intro m k v _ h; cases h
  | cons a t ih =>
      intro m k v hnd hkv
      rw [List.map_cons, List.nodup_cons] at hnd
      by_cases ha : (a.1 == k) = true
      · have hak : a.1 = k := by simpa using ha
        have hv : some a.2 = some v := by
          simpa [lookupV, ha] using hkv
        have hmem : ∀ kv ∈ t, kv.1 ≠ k := by
          intro kv hv' heq
          exact hnd.1 (hak ▸ heq ▸ List.mem_map_of_mem Prod.fst hv')
        show lookupV (t.foldl (fun m kv => dset m kv.1 kv.2) (dset m a.1 a.2)) k = some v
        rw [lookupV_foldl_dset_not_mem t (dset m a.1 a.2) k hmem, hak,
          lookupV_dset_self]
        exact hv
      · have ha' : (a.1 == k) = false := by simpa using ha
        have hkv' : lookupV t k = some v := by
          simpa [lookupV, ha'] using hkv
        exact ih (dset m a.1 a.2) k v hnd.2 hkv'

/-- A guarded `meta[k'] = v` that is skipped when `k'` is already present
cannot change the binding of a key that is present. -/
theorem lookupV_guard_step (m : List (String × Val)) (c : Bool) (k kset : String)
    (v w : Val) (hk : lookupV m k = some v) :
    lookupV (if c && !hasKey m kset then dset m kset w else m) k = some v := by
  by_cases he : k = kset
  · subst he
    have hh : hasKey m k = true := hasKey_of_lookupV m k v hk
    simp [hh, hk]
  · split
    · rw [lookupV_dset_ne m k kset w he]
      exact hk
    · exact hk

/-- C9, amended: metadata assembly preserves every key-value pair of an
explicitly supplied `_meta` mapping except for the two raw-context keys
`_raw_item` and `_raw_html_len`, which are re-copied from the top level of
`raw` after the merge; for every other key the `_meta` binding survives
unchanged into the assembled metadata (`original_price` and
`original_currency` are only added when absent). -/
theorem c9_meta_preserved_except_raw_context (raw row : List (String × Val))
    (metaKvs : List (String × Val)) (k : String) (v : Val)
    (hm : pyGet raw "_meta" Val.null = Val.dict metaKvs)
    (hnd : (metaKvs.map Prod.fst).Nodup)
    (hkv : lookupV metaKvs k = some v)
    (h1 : k ≠ "_raw_item") (h2 : k ≠ "_raw_html_len") :
    lookupV (build_metadata raw row) k = some v := by
  simp only [build_metadata, hm]
  apply lookupV_guard_step
  apply lookupV_guard_step
  cases hx2 : pyGet raw "_raw_html_len" Val.null <;>
    cases hx1 : pyGet raw "_raw_item" Val.null <;>
    simp only [] <;>
    (try rw [lookupV_dset_ne _ _ "_raw_html_len" _ h2]) <;>
    (try rw [lookupV_dset_ne _ _ "_raw_item" _ h1]) <;>
    exact lookupV_foldl_dset metaKvs _ k v hnd hkv

/-- C9, witness: a `_meta` pair `("color", "red")` survives assembly. -/
theorem c9_meta_preserved_except_raw_context_witness :
    lookupV
      (build_metadata [("product_url", Val.str "u"),
        ("_meta", Val.dict [("color", Val.str "red")])] [("source", Val.str "scraper")])
      "color" = some (Val.str "red") :=
  c9_meta_preserved_except_raw_context
    [("product_url", Val.str "u"), ("_meta", Val.dict [("color", Val.str "red")])]
    [("source", Val.str "scraper")] [("color", Val.str "red")] "color" (Val.str "red")
    rfl (by simp) rfl (by decide) (by decide)

/-- C9, counterexample: the claim says an explicitly supplied `_meta`
mapping is never overwritten.  With `_meta = {"_raw_item": "a"}` and a
top-level raw field `_raw_item = "b"`, the assembled metadata maps
`_raw_item` to `"b"`, overwriting the `_meta`-supplied `"a"`. -/
theorem c9_counterexample_raw_item_overwritten :
    ((to_supabase_row [("product_url", Val.str "u"),
        ("_meta", Val.dict [("_raw_item", Val.str "a")]),
        ("_raw_item", Val.str "b")]).map (fun r => pyGet r "metadata" Val.null)
      = Except.ok (Val.dict [("source", Val.str "scraper"), ("id", Val.str "u"),
          ("_raw_item", Val.str "b")]))
    ∧ Val.str "b" ≠ Val.str "a" :=
  ⟨rfl, by simp⟩

/-- Folding the base-10 accumulator from `a` over `l` scales `a` by
`10 ^ |l|` and adds the value of `l`. -/
theorem foldl_digits (l : List Char) :
    ∀ a : Nat, l.foldl (fun a c => 10 * a + digitVal c) a
      = a * 10 ^ l.length + digitsToNat l := by
  induction l with
  | nil => intro a; simp [digitsToNat]
  | cons c t ih =>
      intro a
      show t.foldl _ (10 * a + digitVal c) = _
      rw [ih (10 * a + digitVal c)]
      have hd : digitsToNat (c :: t) = digitVal c * 10 ^ t.length + digitsToNat t := by
        show t.foldl _ (10 * 0 + digitVal c) = _
        rw [ih (10 * 0 + digitVal c)]
        ring_nf
      rw [hd]
      simp [List.length_cons, pow_succ]
      ring

/-- The value of a concatenation of digit strings. -/
theorem digitsToNat_append (l1 l2 : List Char) :
    digitsToNat (l1 ++ l2) = digitsToNat l1 * 10 ^ l2.length + digitsToNat l2 := by
  unfold digitsToNat
  rw [List.foldl_append]
  exact foldl_digits l2 _

/-- Leading `'0'` characters do not change the value of a digit string. -/
theorem digitsToNat_replicate_zero (j : Nat) (l : List Char) :
    digitsToNat (List.replicate j '0' ++ l) = digitsToNat l := by
  rw [digitsToNat_append]
  have hz : digitsToNat (List.replicate j '0') = 0 := by
    induction j with
    | zero => rfl
    | succ m ih =>
        rw [List.replicate_succ]
        show (List.replicate m '0').foldl _ (10 * 0 + digitVal '0') = 0
        have h0 : (10 * 0 + digitVal '0') = 0 := rfl
        rw [h0]
        exact ih
  rw [hz]
  simp

/-- Decoding inverts the digit encoding for a single digit. -/
theorem digitVal_digitChar (d : Nat) (h : d < 10) : digitVal (digitChar d) = d := by
  interval_cases d <;> rfl

/-- Every character emitted by `natDigitsAux` is a decimal digit character. -/
theorem natDigitsAux_mem (fuel : Nat) :
    ∀ (n : Nat) (c : Char), c ∈ natDigitsAux fuel n → ∃ d, d < 10 ∧ c = digitChar d := by
  induction fuel with
  | zero => intro n c h; cases h
  | succ f ih =>
      intro n c h
      by_cases hn : n < 10
      · simp only [natDigitsAux, if_pos hn, List.mem_singleton] at h
        exact ⟨n, hn, h⟩
      · simp only [natDigitsAux, if_neg hn, List.mem_append, List.mem_singleton] at h
        rcases h with h | h
        · exact ih (n / 10) c h
        · exact ⟨n % 10, Nat.mod_lt n (by omega), h⟩

/-- Decoding inverts the encoding of a natural number into digits, given
enough fuel. -/
theorem digitsToNat_natDigitsAux (fuel : Nat) :
    ∀ n : Nat, n < fuel → digitsToNat (natDigitsAux fuel n) = n := by
  induction fuel with
  | zero => intro n h; omega
  | succ f ih =>
      intro n h
      by_cases hn : n < 10
      · simp only [natDigitsAux, if_pos hn]
        show (10 * 0 + digitVal (digitChar n)) = n
        rw [digitVal_digitChar n hn]
        omega
      · simp only [natDigitsAux, if_neg hn]
        rw [digitsToNat_append]
        have h10 : n / 10 < f := by
          have := Nat.div_lt_self (by omega : 0 < n) (by omega : 1 < 10)
          omega
        rw [ih (n / 10) h10]
        have hlast : digitsToNat [digitChar (n % 10)] = n % 10 := by
          show (10 * 0 + digitVal (digitChar (n % 10))) = n % 10
          rw [digitVal_digitChar (n % 10) (Nat.mod_lt n (by omega))]
          omega
        rw [hlast]
        simp only [List.length_singleton, pow_one]
        omega

/-- Decoding inverts `natDigits`. -/
theorem digitsToNat_natDigits (n : Nat) : digitsToNat (natDigits n) = n :=
  digitsToNat_natDigitsAux (n + 1) n (Nat.lt_succ_self n)

/-- Every character of `natDigits n` is a digit character. -/
theorem natDigits_mem (n : Nat) (c : Char) (h : c ∈ natDigits n) :
    ∃ d, d < 10 ∧ c = digitChar d :=
  natDigitsAux_mem (n + 1) n c h

/-- `natDigits` never returns the empty list. -/
theorem natDigits_ne_nil (n : Nat) : natDigits n ≠ [] := by
  unfold natDigits natDigitsAux
  by_cases hn : n < 10
  · simp [hn]
  · simp [hn]

/-- A natural number is below `10` to the power of its digit count. -/
theorem natDigitsAux_lt_pow (fuel : Nat) :
    ∀ n, n < fuel → n < 10 ^ (natDigitsAux fuel n).length := by
  induction fuel with
  | zero => intro n h; omega
  | succ f ih =>
      intro n _h
      by_cases hn : n < 10
      · simp only [natDigitsAux, if_pos hn, List.length_singleton, pow_one]
        exact hn
      · simp only [natDigitsAux, if_neg hn, List.length_append, List.length_singleton]
        have hdiv : n / 10 < f := by
          have h1 : n / 10 < n := Nat.div_lt_self (by omega) (by omega)
          omega
        have h2 := ih (n / 10) hdiv
        rw [pow_succ]
        omega

/-- For a nonzero number, `10` to the power of its digit count is at most
ten times the number: the leading digit is nonzero. -/
theorem natDigitsAux_pow_le (fuel : Nat) :
    ∀ n, n < fuel → n ≠ 0 → 10 ^ (natDigitsAux fuel n).length ≤ 10 * n := by
  induction fuel with
  | zero => intro n h _; omega
  | succ f ih =>
      intro n _h hn0
      by_cases hn : n < 10
      · simp only [natDigitsAux, if_pos hn, List.length_singleton, pow_one]
        omega
      · simp only [natDigitsAux, if_neg hn, List.length_append, List.length_singleton]
        have hdiv : n / 10 < f := by
          have h1 : n / 10 < n := Nat.div_lt_self (by omega) (by omega)
          omega
        have hdn : n / 10 ≠ 0 := by omega
        have h2 := ih (n / 10) hdiv hdn
        rw [pow_succ]
        omega

/-- Digit-count bounds for `natDigits`: `n < 10 ^ L`, and `10 ^ L ≤ 10 n`
for nonzero `n`, where `L` is the digit count of `n`. -/
theorem natDigits_length_bounds (n : Nat) :
    n < 10 ^ (natDigits n).length ∧ (n ≠ 0 → 10 ^ (natDigits n).length ≤ 10 * n) :=
  ⟨natDigitsAux_lt_pow (n + 1) n (Nat.lt_succ_self n),
   fun h => natDigitsAux_pow_le (n + 1) n (Nat.lt_succ_self n) h⟩

/-- Character facts for a decimal digit character: it is a digit, and it is
not a period, a comma, or whitespace. -/
theorem digitChar_props (d : Nat) (h : d < 10) :
    (digitChar d).isDigit = true ∧ ((digitChar d) == '.') = false
      ∧ ((digitChar d) == ',') = false ∧ (digitChar d).isWhitespace = false := by
  interval_cases d <;> exact ⟨rfl, rfl, rfl, rfl⟩

/-- Stripping leaves a list with no whitespace characters unchanged. -/
theorem pyStripChars_eq_self (l : List Char) (h : ∀ c ∈ l, c.isWhitespace = false) :
    pyStripChars l = l := by
  have hdrop : ∀ m : List Char, (∀ c ∈ m, c.isWhitespace = false) →
      m.dropWhile Char.isWhitespace = m := by
    intro m hm
    cases m with
    | nil => rfl
    | cons c t =>
        rw [List.dropWhile_cons_of_neg]
        simp [hm c (List.mem_cons_self c t)]
  unfold pyStripChars
  rw [hdrop l h, hdrop l.reverse (fun c hc => h c (List.mem_reverse.mp hc)),
    List.reverse_reverse]

/-- `takeWhile` runs through a block that satisfies the predicate and stops
at the first failure. -/
theorem takeWhile_append_block (p : Char → Bool) :
    ∀ (a : List Char) (x : Char) (b : List Char), (∀ c ∈ a, p c = true) → p x = false →
      (a ++ x :: b).takeWhile p = a := by
  intro a
  induction a with
  | nil =>
      intro x b _ hx
      simp [List.takeWhile_cons, hx]
  | cons c t ih =>
      intro x b ha hx
      have hc : p c = true := ha c (List.mem_cons_self c t)
      simp only [List.cons_append, List.takeWhile_cons, hc, if_true]
      rw [ih x b (fun c' hc' => ha c' (List.mem_cons_of_mem c hc')) hx]

/-- `dropWhile` drops exactly the leading block that satisfies the
predicate. -/
theorem dropWhile_append_block (p : Char → Bool) :
    ∀ (a : List Char) (x : Char) (b : List Char), (∀ c ∈ a, p c = true) → p x = false →
      (a ++ x :: b).dropWhile p = x :: b := by
  intro a
  induction a with
  | nil =>
      intro x b _ hx
      simp [List.dropWhile_cons, hx]
  | cons c t ih =>
      intro x b ha hx
      have hc : p c = true := ha c (List.mem_cons_self c t)
      simp only [List.cons_append, List.dropWhile_cons, hc, if_true]
      exact ih x b (fun c' hc' => ha c' (List.mem_cons_of_mem c hc')) hx

/-- `stripZeros` preserves the denoted value, never increases the exponent,
and stops only at exponent zero or at a mantissa not divisible by 10. -/
theorem stripZeros_spec : ∀ (e n : Nat),
    n = (stripZeros n e).1 * 10 ^ (e - (stripZeros n e).2)
    ∧ (stripZeros n e).2 ≤ e
    ∧ ((stripZeros n e).2 = 0 ∨ (stripZeros n e).1 % 10 ≠ 0) := by
  intro e
  induction e with
  | zero =>
      intro n
      exact ⟨by simp [stripZeros], Nat.le_refl 0, Or.inl rfl⟩
  | succ e ih =>
      intro n
      by_cases hm : n % 10 = 0
      · have hstep : stripZeros n (e + 1) = stripZeros (n / 10) e := by
          simp [stripZeros, hm]
        rcases ih (n / 10) with ⟨hval, hle, hcanon⟩
        refine ⟨?_, ?_, ?_⟩
        · rw [hstep]
          have hn : n = (n / 10) * 10 := by omega
          calc n = (n / 10) * 10 := hn
            _ = ((stripZeros (n / 10) e).1 * 10 ^ (e - (stripZeros (n / 10) e).2)) * 10 := by
                rw [← hval]
            _ = (stripZeros (n / 10) e).1 * 10 ^ (e + 1 - (stripZeros (n / 10) e).2) := by
                rw [mul_assoc, ← pow_succ]
                congr 2
                omega
        · rw [hstep]; omega
        · rw [hstep]; exact hcanon
      · have hstep : stripZeros n (e + 1) = (n, e + 1) := by
          simp [stripZeros, hm]
        rw [hstep]
        exact ⟨by simp, Nat.le_refl _, Or.inr hm⟩

/-- A canonical value below 1000 that is zero or at least 1e-4 is printed
positionally: neither scientific regime is entered. -/
theorem sciRegime_eq_false (n e : Nat)
    (hsmall : n < 1000 * 10 ^ e)
    (hlow : n = 0 ∨ 10 ^ e ≤ 10000 * n) :
    sciRegime n e = false := by
  rcases eq_or_ne n 0 with h0 | h0
  · subst h0
    rfl
  · have hub := (natDigits_length_bounds n).1
    have hlb := (natDigits_length_bounds n).2 h0
    have hlow' : 10 ^ e ≤ 10000 * n := hlow.resolve_left h0
    have hLe : (natDigits n).length ≤ e + 3 := by
      by_contra hcon
      push_neg at hcon
      have h1 : (10 : Nat) ^ (e + 4) ≤ 10 ^ (natDigits n).length :=
        Nat.pow_le_pow_right (by omega) (by omega)
      have h2 : (10 : Nat) ^ (e + 4) = 10000 * 10 ^ e := by ring
      omega
    have heL : e ≤ (natDigits n).length + 3 := by
      by_contra hcon
      push_neg at hcon
      have h1 : (10 : Nat) ^ ((natDigits n).length + 4) ≤ 10 ^ e :=
        Nat.pow_le_pow_right (by omega) (by omega)
      have h2 : (10 : Nat) ^ ((natDigits n).length + 4)
          = 10000 * 10 ^ (natDigits n).length := by ring
      omega
    unfold sciRegime
    have hd1 : decide (((natDigits n).length : Int) - (e : Int) ≤ -4) = false :=
      decide_eq_false (by omega)
    have hd2 : decide (16 < ((natDigits n).length : Int) - (e : Int)) = false :=
      decide_eq_false (by omega)
    rw [hd1, hd2]
    simp

/-- Outside the scientific regimes the canonical layout is positional. -/
theorem pyFloatStrCanon_eq_pos (n e : Nat) (h : sciRegime n e = false) :
    pyFloatStrCanon n e = pyFloatStrPos n e := by
  simp [pyFloatStrCanon, h]

/-- For a nonnegative value the printed float has no sign and is the
canonical layout of the zero-stripped mantissa and exponent. -/
theorem pyFloatStr_nonneg (d : Dec) (h0 : 0 ≤ d.num) :
    pyFloatStr d = pyFloatStrCanon (stripZeros d.num.natAbs d.exp).1
      (stripZeros d.num.natAbs d.exp).2 := by
  unfold pyFloatStr
  have hneg : ¬ d.num < 0 := by omega
  simp only [if_neg hneg]

/-- Parsing a digit string with a single interior period yields the exact
decimal value with the fractional length as exponent. -/
theorem parseFloatL_digits_dot (a b : List Char)
    (ha : ∀ c ∈ a, ∃ d, d < 10 ∧ c = digitChar d)
    (hb : ∀ c ∈ b, ∃ d, d < 10 ∧ c = digitChar d)
    (hbne : b ≠ []) :
    parseFloatL (a ++ '.' :: b)
      = some ⟨((digitsToNat a * 10 ^ b.length + digitsToNat b : Nat) : Int), b.length⟩ := by
  have hemp : (a ++ '.' :: b).isEmpty = false := by cases a <;> rfl
  have hall : (a ++ '.' :: b).all (fun c => c.isDigit || c == '.') = true := by
    rw [List.all_eq_true]
    intro c hc
    rcases List.mem_append.mp hc with hc | hc
    · rcases ha c hc with ⟨d, hd, rfl⟩
      simp [(digitChar_props d hd).1]
    · rcases List.mem_cons.mp hc with rfl | hc
      · decide
      · rcases hb c hc with ⟨d, hd, rfl⟩
        simp [(digitChar_props d hd).1]
  have hfa : a.filter (fun c => c == '.') = [] := by
    rw [List.filter_eq_nil_iff]
    intro c hc
    rcases ha c hc with ⟨d, hd, rfl⟩
    simp [(digitChar_props d hd).2.1]
  have hfb : b.filter (fun c => c == '.') = [] := by
    rw [List.filter_eq_nil_iff]
    intro c hc
    rcases hb c hc with ⟨d, hd, rfl⟩
    simp [(digitChar_props d hd).2.1]
  have hflen : ((a ++ '.' :: b).filter (fun c => c == '.')).length = 1 := by
    rw [List.filter_append, hfa, List.filter_cons]
    simp [hfb]
  have htake : (a ++ '.' :: b).takeWhile (fun c => c != '.') = a := by
    apply takeWhile_append_block
    · intro c hc
      rcases ha c hc with ⟨d, hd, rfl⟩
      simp [bne, (digitChar_props d hd).2.1]
    · decide
  have hdrop : (a ++ '.' :: b).dropWhile (fun c => c != '.') = '.' :: b := by
    apply dropWhile_append_block
    · intro c hc
      rcases ha c hc with ⟨d, hd, rfl⟩
      simp [bne, (digitChar_props d hd).2.1]
    · decide
  have hbe : b.isEmpty = false := by
    cases b with
    | nil => exact absurd rfl hbne
    | cons _ _ => rfl
  unfold parseFloatL
  simp only [hemp, Bool.false_eq_true, if_false, hall, if_true, hflen, htake, hdrop,
    List.tail_cons, hbe, Bool.and_false]

/-- `computePrice` on a printed digits-period-digits string: the cleanup
steps are identities, the parse is exact, and a value below 1000 is not
divided again. -/
theorem computePrice_digits_dot (a b : List Char)
    (ha : ∀ c ∈ a, ∃ d, d < 10 ∧ c = digitChar d)
    (hb : ∀ c ∈ b, ∃ d, d < 10 ∧ c = digitChar d)
    (hbne : b ≠ [])
    (hsmall : digitsToNat a * 10 ^ b.length + digitsToNat b < 1000 * 10 ^ b.length) :
    computePrice (Val.str ⟨a ++ '.' :: b⟩)
      = some ⟨((digitsToNat a * 10 ^ b.length + digitsToNat b : Nat) : Int), b.length⟩ := by
  have hnws : ∀ c ∈ a ++ '.' :: b, c.isWhitespace = false := by
    intro c hc
    rcases List.mem_append.mp hc with hc | hc
    · rcases ha c hc with ⟨d, hd, rfl⟩
      exact (digitChar_props d hd).2.2.2
    · rcases List.mem_cons.mp hc with rfl | hc
      · decide
      · rcases hb c hc with ⟨d, hd, rfl⟩
        exact (digitChar_props d hd).2.2.2
  have hstrip : pyStripChars (a ++ '.' :: b) = a ++ '.' :: b :=
    pyStripChars_eq_self _ hnws
  have hfilter : (a ++ '.' :: b).filter (fun c => c.isDigit || c == '.' || c == ',')
      = a ++ '.' :: b := by
    rw [List.filter_eq_self]
    intro c hc
    rcases List.mem_append.mp hc with hc | hc
    · rcases ha c hc with ⟨d, hd, rfl⟩
      simp [(digitChar_props d hd).1]
    · rcases List.mem_cons.mp hc with rfl | hc
      · decide
      · rcases hb c hc with ⟨d, hd, rfl⟩
        simp [(digitChar_props d hd).1]
  have hcomma : countChar ',' (a ++ '.' :: b) = 0 := by
    unfold countChar
    rw [List.count_eq_zero]
    intro hmem
    rcases List.mem_append.mp hmem with hc | hc
    · rcases ha ',' hc with ⟨d, hd, hdc⟩
      have := (digitChar_props d hd).2.2.1
      rw [← hdc] at this
      simp at this
    · rcases List.mem_cons.mp hc with hcc | hc
      · cases hcc
      · rcases hb ',' hc with ⟨d, hd, hdc⟩
        have := (digitChar_props d hd).2.2.1
        rw [← hdc] at this
        simp at this
  have hdot : countChar '.' (a ++ '.' :: b) = 1 := by
    unfold countChar
    rw [List.count_append]
    have hca : a.count '.' = 0 := by
      rw [List.count_eq_zero]
      intro hmem
      rcases ha '.' hmem with ⟨d, hd, hdc⟩
      have := (digitChar_props d hd).2.1
      rw [← hdc] at this
      simp at this
    have hcb : b.count '.' = 0 := by
      rw [List.count_eq_zero]
      intro hmem
      rcases hb '.' hmem with ⟨d, hd, hdc⟩
      have := (digitChar_props d hd).2.1
      rw [← hdc] at this
      simp at this
    rw [hca, List.count_cons_self, hcb]
  have hemp : (a ++ '.' :: b).isEmpty = false := by cases a <;> rfl
  have hcond : geq1000AndIntegral
      (digitsToNat a * 10 ^ b.length + digitsToNat b) b.length = false := by
    unfold geq1000AndIntegral
    rw [decide_eq_false (by omega : ¬ (1000 * 10 ^ b.length ≤
      digitsToNat a * 10 ^ b.length + digitsToNat b))]
    simp
  unfold computePrice
  show (let s1 := pyStripChars (String.mk (a ++ '.' :: b)).data; _) = _
  simp only [hstrip, hfilter, hcomma, hdot, hemp, Bool.false_eq_true, if_false]
  norm_num
  simp only [hdot]
  norm_num
  constructor
  · simp
  · rw [parseFloatL_digits_dot a b ha hb hbne]
    have hna : (((digitsToNat a * 10 ^ b.length + digitsToNat b : Nat) : Int)).natAbs
        = digitsToNat a * 10 ^ b.length + digitsToNat b := Int.natAbs_ofNat _
    simp only [hna, hcond, Bool.false_eq_true, if_false]
    norm_cast

/-- Every character of a left-zero-padded digit string is a digit
character. -/
theorem leftPad_digits_mem (k : Nat) (l : List Char)
    (hl : ∀ c ∈ l, ∃ d, d < 10 ∧ c = digitChar d) :
    ∀ c ∈ leftPad '0' k l, ∃ d, d < 10 ∧ c = digitChar d := by
  intro c hc
  rcases List.mem_append.mp hc with hc | hc
  · exact ⟨0, by omega, (List.eq_of_mem_replicate hc)⟩
  · exact hl c hc

/-- A canonically printed decimal value below 1000 that is zero or at
least 1e-4 is a fixed point of a further normalization pass: the layout is
positional, parsing the printed string recovers the exact value, the
divide-by-100 heuristic does not fire, and printing reproduces the same
string. -/
theorem normPriceVal_printed_fix (n' e' : Nat)
    (hsmall : n' < 1000 * 10 ^ e')
    (hcanon : e' = 0 ∨ n' % 10 ≠ 0)
    (hlow : n' = 0 ∨ 10 ^ e' ≤ 10000 * n') :
    normPriceVal (Val.str (pyFloatStr ⟨(n' : Int), e'⟩))
      = Val.str (pyFloatStr ⟨(n' : Int), e'⟩) := by
  have hcanon' : stripZeros n' e' = (n', e') := by
    cases e' with
    | zero => rfl
    | succ e'' =>
        rcases hcanon with h | h
        · cases h
        · simp [stripZeros, beq_eq_false_iff_ne.mpr h]
  have hsci : sciRegime n' e' = false := sciRegime_eq_false n' e' hsmall hlow
  have hnn : (0 : Int) ≤ (⟨(n' : Int), e'⟩ : Dec).num := Int.natCast_nonneg n'
  have hpos : pyFloatStr ⟨(n' : Int), e'⟩ = pyFloatStrPos n' e' := by
    rw [pyFloatStr_nonneg ⟨(n' : Int), e'⟩ hnn,
      show (⟨(n' : Int), e'⟩ : Dec).num.natAbs = n' from rfl,
      show (⟨(n' : Int), e'⟩ : Dec).exp = e' from rfl, hcanon']
    exact pyFloatStrCanon_eq_pos n' e' hsci
  cases e' with
  | zero =>
      have hS : pyFloatStr ⟨(n' : Int), 0⟩ = (⟨natDigits n' ++ '.' :: ['0']⟩ : String) := by
        rw [hpos]
        rfl
      rw [hS]
      have hmem0 : ∀ c ∈ ['0'], ∃ d, d < 10 ∧ c = digitChar d := by
        intro c hc
        rcases List.mem_singleton.mp hc with rfl
        exact ⟨0, by omega, rfl⟩
      have hz : digitsToNat ['0'] = 0 := rfl
      have hN2 : digitsToNat (natDigits n') * 10 ^ (['0'] : List Char).length
          + digitsToNat ['0'] = n' * 10 := by
        rw [digitsToNat_natDigits, hz]
        simp only [List.length_singleton, pow_one, Nat.add_zero]
      have hsmall2 : digitsToNat (natDigits n') * 10 ^ (['0'] : List Char).length
          + digitsToNat ['0'] < 1000 * 10 ^ (['0'] : List Char).length := by
        rw [hN2]
        simp only [List.length_singleton, pow_one]
        omega
      have hcp := computePrice_digits_dot (natDigits n') ['0']
        (fun c hc => natDigits_mem n' c hc) hmem0 (by simp) hsmall2
      rw [hN2] at hcp
      simp only [normPriceVal, hcp]
      congr 1
      have hstrip2 : stripZeros (n' * 10) 1 = (n', 0) := by
        have hmod : (n' * 10) % 10 = 0 := Nat.mul_mod_left n' 10
        have hdiv : (n' * 10) / 10 = n' := Nat.mul_div_cancel n' (by omega)
        simp [stripZeros, hmod, hdiv]
      show pyFloatStr ⟨((n' * 10 : Nat) : Int), 1⟩ = _
      rw [pyFloatStr_nonneg ⟨((n' * 10 : Nat) : Int), 1⟩ (Int.natCast_nonneg _),
        show (⟨((n' * 10 : Nat) : Int), 1⟩ : Dec).num.natAbs = n' * 10 from rfl,
        show (⟨((n' * 10 : Nat) : Int), 1⟩ : Dec).exp = 1 from rfl, hstrip2]
      show pyFloatStrCanon n' 0 = _
      rw [pyFloatStrCanon_eq_pos n' 0 hsci]
      rfl
  | succ e'' =>
      have hS : pyFloatStr ⟨(n' : Int), e'' + 1⟩
          = (⟨(leftPad '0' (e'' + 2) (natDigits n')).take
                ((leftPad '0' (e'' + 2) (natDigits n')).length - (e'' + 1))
              ++ '.' :: (leftPad '0' (e'' + 2) (natDigits n')).drop
                ((leftPad '0' (e'' + 2) (natDigits n')).length - (e'' + 1))⟩ : String) := by
        rw [hpos]
        rfl
      rw [hS]
      have hmemds : ∀ c ∈ leftPad '0' (e'' + 2) (natDigits n'),
          ∃ d, d < 10 ∧ c = digitChar d :=
        leftPad_digits_mem (e'' + 2) (natDigits n') (natDigits_mem n')
      have hL : e'' + 2 ≤ (leftPad '0' (e'' + 2) (natDigits n')).length := by
        simp only [leftPad, List.length_append, List.length_replicate]
        omega
      have hdl : ((leftPad '0' (e'' + 2) (natDigits n')).drop
          ((leftPad '0' (e'' + 2) (natDigits n')).length - (e'' + 1))).length
          = e'' + 1 := by
        rw [List.length_drop]
        omega
      have hbne : (leftPad '0' (e'' + 2) (natDigits n')).drop
          ((leftPad '0' (e'' + 2) (natDigits n')).length - (e'' + 1)) ≠ [] := by
        intro hnil
        rw [hnil] at hdl
        simp at hdl
      have hval : digitsToNat ((leftPad '0' (e'' + 2) (natDigits n')).take
            ((leftPad '0' (e'' + 2) (natDigits n')).length - (e'' + 1)))
          * 10 ^ ((leftPad '0' (e'' + 2) (natDigits n')).drop
            ((leftPad '0' (e'' + 2) (natDigits n')).length - (e'' + 1))).length
          + digitsToNat ((leftPad '0' (e'' + 2) (natDigits n')).drop
            ((leftPad '0' (e'' + 2) (natDigits n')).length - (e'' + 1))) = n' := by
        rw [← digitsToNat_append, List.take_append_drop]
        show digitsToNat (List.replicate _ '0' ++ natDigits n') = n'
        rw [digitsToNat_replicate_zero, digitsToNat_natDigits]
      have hsmall2 : digitsToNat ((leftPad '0' (e'' + 2) (natDigits n')).take
            ((leftPad '0' (e'' + 2) (natDigits n')).length - (e'' + 1)))
          * 10 ^ ((leftPad '0' (e'' + 2) (natDigits n')).drop
            ((leftPad '0' (e'' + 2) (natDigits n')).length - (e'' + 1))).length
          + digitsToNat ((leftPad '0' (e'' + 2) (natDigits n')).drop
            ((leftPad '0' (e'' + 2) (natDigits n')).length - (e'' + 1)))
          < 1000 * 10 ^ ((leftPad '0' (e'' + 2) (natDigits n')).drop
            ((leftPad '0' (e'' + 2) (natDigits n')).length - (e'' + 1))).length := by
        rw [hval, hdl]
        exact hsmall
      have hcp := computePrice_digits_dot _ _
        (fun c hc => hmemds c (List.mem_of_mem_take hc))
        (fun c hc => hmemds c (List.mem_of_mem_drop hc)) hbne hsmall2
      rw [hval, hdl] at hcp
      simp only [normPriceVal, hcp]
      rw [hS]

/-- C3, amended: price normalization is idempotent for every input whose
normalization succeeds with a nonnegative value below 1000 that is zero or
at least 1e-4 (the positional-printing regime) — renormalizing the printed
output reproduces it exactly; and the claim's concrete examples hold
("2990" normalizes to "29.9" and "29.90" to "29.9").  (The claim as stated
fails in two regimes: a successful value that is an integer of at least
1000 is divided by 100 a second time, e.g. "100000" → "1000.0" → "10.0";
and a positive value below 1e-4 is printed in scientific notation, whose
digits re-parse to an unrelated value, e.g. "0.00005" → "5e-05" → "505.0".
The hypotheses `d.num < 1000 * 10 ^ d.exp` and
`d.num = 0 ∨ 10 ^ d.exp ≤ 10000 * d.num.natAbs` say the parsed value is
below 1000 and zero or at least 1e-4.) -/
theorem c3_price_idempotent_below_1000 (p : Val) (d : Dec)
    (h : computePrice p = some d) (h0 : 0 ≤ d.num)
    (h1 : d.num < 1000 * 10 ^ d.exp)
    (h2 : d.num = 0 ∨ 10 ^ d.exp ≤ 10000 * d.num.natAbs) :
    normPriceVal (normPriceVal p) = normPriceVal p
    ∧ normPriceVal (Val.str "2990") = Val.str "29.9"
    ∧ normPriceVal (Val.str "29.90") = Val.str "29.9" := by
  refine ⟨?_, rfl, rfl⟩
  have hp : normPriceVal p = Val.str (pyFloatStr d) := by
    simp [normPriceVal, h]
  rw [hp]
  obtain ⟨hval, hle, hcanon⟩ := stripZeros_spec d.exp d.num.natAbs
  have h1n : d.num.natAbs < 1000 * 10 ^ d.exp := by
    have h2 : (d.num.natAbs : Int) < 1000 * 10 ^ d.exp := by
      rw [Int.natAbs_of_nonneg h0]
      exact h1
    exact_mod_cast h2
  cases hse : stripZeros d.num.natAbs d.exp with
  | mk n' e' =>
    rw [hse] at hval hle hcanon
    have hcanon2 : stripZeros n' e' = (n', e') := by
      rcases hcanon with hz | hm
      · have : e' = 0 := hz
        subst this
        rfl
      · cases e' with
        | zero => rfl
        | succ e'' =>
            simp [stripZeros, beq_eq_false_iff_ne.mpr (show n' % 10 ≠ 0 from hm)]
    have hps : pyFloatStr d = pyFloatStr ⟨(n' : Int), e'⟩ := by
      rw [pyFloatStr_nonneg d h0, hse,
        pyFloatStr_nonneg ⟨(n' : Int), e'⟩ (Int.natCast_nonneg n'),
        show (⟨(n' : Int), e'⟩ : Dec).num.natAbs = n' from rfl,
        show (⟨(n' : Int), e'⟩ : Dec).exp = e' from rfl, hcanon2]
    rw [hps]
    have hpow : (10 : Nat) ^ d.exp = 10 ^ e' * 10 ^ (d.exp - e') := by
      rw [← pow_add]
      congr 1
      omega
    have hpp : 0 < (10 : Nat) ^ (d.exp - e') := pow_pos (by omega) _
    have hlow' : n' = 0 ∨ 10 ^ e' ≤ 10000 * n' := by
      rcases h2 with hz | hge
      · left
        have hz' : d.num.natAbs = 0 := by
          rw [hz]
          rfl
        rw [hz'] at hval
        exact (Nat.mul_eq_zero.mp hval.symm).resolve_right (Nat.pos_iff_ne_zero.mp hpp)
      · right
        rw [hpow, hval, ← mul_assoc] at hge
        exact Nat.le_of_mul_le_mul_right hge hpp
    apply normPriceVal_printed_fix n' e' ?_ hcanon hlow'
    have hlt : n' * 10 ^ (d.exp - e') < (1000 * 10 ^ e') * 10 ^ (d.exp - e') := by
      calc n' * 10 ^ (d.exp - e') = d.num.natAbs := hval.symm
        _ < 1000 * 10 ^ d.exp := h1n
        _ = (1000 * 10 ^ e') * 10 ^ (d.exp - e') := by rw [hpow, mul_assoc]
    exact Nat.lt_of_mul_lt_mul_right hlt

/-- C3, witness: the minor-unit input "2990" normalizes to "29.9", whose
renormalization is a fixed point. -/
theorem c3_price_idempotent_below_1000_witness :
    normPriceVal (normPriceVal (Val.str "2990")) = normPriceVal (Val.str "2990") :=
  (c3_price_idempotent_below_1000 (Val.str "2990") ⟨2990, 2⟩ rfl (by decide)
    (by decide) (by decide)).1
